import Mathlib

/-!
Verification of the J* bytecode virtual machine runtime core.

Shallow embedding of the interpreter sources:
  * src/jstar/src/vm.c   (value stack, calls, dispatch loop, unwinding)
  * src/src/vm.h         (VM state declarations)
  * src/apps/jstar/cli.c (command-line driver, import path setup)

Each namespace below embeds one functional area of the sources; the
theorems at the end of the file settle the specification claims against
those embeddings.
-/

namespace JStar

/-- Shallow embedding of a J* runtime `Value` (value.h / vm.c).  Numbers are
modelled as integers: none of the verified properties depends on IEEE-754
behaviour.  Heap objects other than tuples and lists are abstracted to an
identity, since the properties below only propagate them. -/
inductive Value where
  | vnull
  | vbool (b : Bool)
  | vnum (n : Int)
  | vtuple (arr : List Value)
  | vlist (arr : List Value)
  | vobj (id : Nat)

-- -----------------------------------------------------------------------------
-- Argument adjustment (vm.c:193-233): packVarargs / argumentError / adjustArguments
-- -----------------------------------------------------------------------------

namespace Args

/-- The fields of `FnCommon` read by `adjustArguments` (vm.c:207): the varargs
flag, the declared arity `argsCount`, the number of default values `defaultc`
and the default-value array, modelled as a function from index to value. -/
structure FnCommon where
  vararg : Bool
  argsCount : Nat
  defaultc : Nat
  defaults : Nat → Value

/-- Unsigned 8-bit subtraction: `argsCount`, `defaultc` and `argc` are
`uint8_t` in the source, so `most - c->defaultc` (vm.c:208) and
`argc - least` (vm.c:224) wrap modulo 256. -/
def u8sub (a b : Nat) : Nat := (a + 256 - b) % 256

/-- The data of the `TypeException` built by `argumentError` (vm.c:201-205):
the quantity word ("exactly" / "at most" / "at least"), the expected count
and the supplied count. -/
structure ArgError where
  quantity : String
  expected : Nat
  supplied : Nat
deriving DecidableEq

/-- `packVarargs` (vm.c:193-199): pop `count` values off the stack into a
fresh tuple (filled from the last index down, so stack order is preserved)
and push the tuple.  The stack is a list with its head at the top. -/
def packVarargs (count : Nat) (stack : List Value) : List Value :=
  Value.vtuple ((stack.take count).reverse) :: stack.drop count

/-- `adjustArguments` (vm.c:207-233).  `stack` is the operand stack with the
`argc` supplied arguments on top (head = top of stack).  On success the
returned stack has the missing defaults pushed and, for varargs functions,
the extra arguments packed into a tuple. -/
def adjustArguments (c : FnCommon) (argc : Nat) (stack : List Value) :
    Except ArgError (List Value) :=
  let most := c.argsCount
  let least := u8sub most c.defaultc
  if c.vararg = false ∧ most = least ∧ argc ≠ c.argsCount then
    .error ⟨"exactly", c.argsCount, argc⟩
  else if c.vararg = false ∧ argc > most then
    .error ⟨"at most", most, argc⟩
  else if argc < least then
    .error ⟨"at least", least, argc⟩
  else
    let start := u8sub argc least
    let pushed := (List.range' start (c.defaultc - start)).map c.defaults
    let stack1 := pushed.reverse ++ stack
    if c.vararg then
      .ok (packVarargs (if argc > most then argc - most else 0) stack1)
    else
      .ok stack1

/-- The default values the claim says are pushed on a successful call: with
arity `n = argsCount` and `d = defaultc`, the defaults at the indices in
`[argc - (n - d), d)`, in order. -/
def claimDefaults (c : FnCommon) (argc : Nat) : List Value :=
  (List.range' (argc - (c.argsCount - c.defaultc))
    (c.defaultc - (argc - (c.argsCount - c.defaultc)))).map c.defaults

end Args

-- -----------------------------------------------------------------------------
-- try/ensure machinery: OP_RETURN (vm.c:1065-1089), OP_END_TRY (vm.c:1281-1298),
-- RESTORE_HANDLER (vm.c:709-716)
-- -----------------------------------------------------------------------------

namespace TryEnsure

/-- The numeric value of the unwind cause tag `CAUSE_EXCEPT` (vm.c:17-20),
pushed on the stack as a number by `RESTORE_HANDLER`. -/
def CAUSE_EXCEPT : Int := 0

/-- The numeric value of the unwind cause tag `CAUSE_RETURN` (vm.c:17-20). -/
def CAUSE_RETURN : Int := 1

/-- The two handler kinds installed by `OP_SETUP_EXCEPT` / `OP_SETUP_ENSURE`
(vm.h:61-68). -/
inductive HandlerType where
  | hEnsure
  | hExcept
deriving DecidableEq

/-- A handler descriptor (struct Handler, vm.h:61-68): kind, address of the
handler code and the stack height to restore before running it. -/
structure Handler where
  htype : HandlerType
  address : Nat
  savesp : Nat

/-- The per-frame state touched by `OP_RETURN` and `OP_END_TRY`: the operand
stack (head = top) and the frame's handler stack (head = innermost). -/
structure St where
  stack : List Value
  handlers : List Handler

/-- Where control goes after executing `OP_RETURN` or `OP_END_TRY`. -/
inductive Outcome where
  | fallThrough (st : St)              -- DISPATCH at the next instruction
  | resumeAt (address : Nat) (st : St) -- RESTORE_HANDLER jumped into handler code
  | unwind (st : St)                   -- UNWIND_STACK with the exception on top
  | frameReturn (ret : Value) (st : St) -- the frame was popped, ret pushed for the caller
  | stuck                              -- UNREACHABLE() in the source

/-- `RESTORE_HANDLER` (vm.c:709-716): restore the saved stack height, then
push the propagating value and the numeric cause tag, and resume at the
handler's address.  (Closing of upvalues above the restored sp is modelled
separately in the `Upvalue` namespace.) -/
def restoreHandler (h : Handler) (cause : Int) (excVal : Value) (st : St) : Outcome :=
  let restored := st.stack.drop (st.stack.length - h.savesp)
  .resumeAt h.address { st with stack := Value.vnum cause :: excVal :: restored }

/-- `IS_NULL` (value.h): the null test applied by `OP_END_TRY` to `peek2`. -/
def isNullVal : Value → Bool
  | Value.vnull => true
  | _ => false

/-- The handler scan of `OP_RETURN` (vm.c:1069-1076): pop handlers from the
top of the frame's handler stack; on the first `HANDLER_ENSURE`, restore it
with the return value and `CAUSE_RETURN`; `HANDLER_EXCEPT` entries are
discarded. -/
def returnScan (ret : Value) (stack : List Value) : List Handler → Outcome
  | [] => .frameReturn ret ⟨stack, []⟩
  | h :: rest =>
    if h.htype = HandlerType.hEnsure then
      restoreHandler h CAUSE_RETURN ret ⟨stack, rest⟩
    else
      returnScan ret stack rest

/-- `OP_RETURN` (vm.c:1065-1089): pop the return value, then scan the frame's
handlers for a pending `ensure`; if none, pop the frame with the value. -/
def opReturn (st : St) : Outcome :=
  match st.stack with
  | [] => .stuck
  | ret :: rest => returnScan ret rest st.handlers

/-- `OP_END_TRY` (vm.c:1281-1298): if the value two slots below the top
(`peek2`) is non-null, pop the numeric cause from the top and switch on it:
`CAUSE_EXCEPT` continues unwinding, `CAUSE_RETURN` jumps to the `OP_RETURN`
path (`goto op_return`); otherwise fall through without touching the stack. -/
def endTry (st : St) : Outcome :=
  match st.stack with
  | top :: below :: rest =>
    if isNullVal below then
      .fallThrough st
    else
      match top with
      | Value.vnum cause =>
        if cause = CAUSE_EXCEPT then
          .unwind { st with stack := below :: rest }
        else if cause = CAUSE_RETURN then
          opReturn { st with stack := below :: rest }
        else
          .stuck
      | _ => .stuck
  | _ => .stuck

end TryEnsure

-- -----------------------------------------------------------------------------
-- Invoke by name: invokeMethod (vm.c:340-348) and invokeValue (vm.c:350-389)
-- -----------------------------------------------------------------------------

namespace Invoke

/-- An `ObjClass` as seen by method lookup: its name and its method table
(vm.c).  The stored callables are abstracted to a type `V`; only which one is
selected matters for dispatch. -/
structure ObjClass (V : Type) where
  name : String
  methods : List (String × V)

/-- The three shapes of receiver distinguished by `invokeValue`: an instance
(with its field table and class), a module (with its name and globals table),
or any other value together with its class (`getClass`). -/
inductive Val (V : Type) where
  | inst (fields : List (String × V)) (cls : ObjClass V)
  | module (mname : String) (globals : List (String × V))
  | other (cls : ObjClass V)

/-- The observable result of an invoke-by-name: either the source reaches
`callValue(vm, callee, argc)` with the selected callee, or it raises. -/
inductive InvokeRes (V : Type) where
  | call (callee : V)
  | methodExc (clsName mName : String)   -- "Method %s.%s() doesn't exists"
  | nameExc (name mname : String)        -- "Name `%s` is not defined in module %s."

/-- `invokeMethod` (vm.c:340-348): look the name up in the class's method
table; raise `MethodException` when absent. -/
def invokeMethod {V : Type} (cls : ObjClass V) (name : String) : InvokeRes V :=
  match cls.methods.lookup name with
  | some m => .call m
  | none => .methodExc cls.name name

/-- `invokeValue` (vm.c:350-389).  Instances: the field table is consulted
first ("Check if field shadows a method"), then the class's methods.
Modules: `vm->modClass->methods` is consulted first ("check if method
shadows a function in the module"), then the module's globals; a
`NameException` is raised when both miss.  Anything else goes through
`invokeMethod` on its class. -/
def invokeValue {V : Type} (modClass : ObjClass V) (val : Val V) (name : String) :
    InvokeRes V :=
  match val with
  | .inst fields cls =>
    match fields.lookup name with
    | some f => .call f
    | none => invokeMethod cls name
  | .module mname globals =>
    match modClass.methods.lookup name with
    | some m => .call m
    | none =>
      match globals.lookup name with
      | some f => .call f
      | none => .nameExc name mname
  | .other cls => invokeMethod cls name

end Invoke

-- -----------------------------------------------------------------------------
-- Binary operator overload fallback: callBinaryOverload (vm.c:577-600) and the
-- comparison opcodes OP_LT..OP_EQ (vm.c:839-866)
-- -----------------------------------------------------------------------------

namespace Overload

/-- A class as seen by the overload lookup: name plus method table with
entries of an abstract callable type `M`. -/
structure OClass (M : Type) where
  name : String
  methods : List (String × M)

/-- The observable result of `callBinaryOverload`: the source either reaches
`callValue(vm, method, 1)` with the two operand slots in the recorded order
(head = top of stack), or raises
`TypeException "Operator %s not defined for types %s, %s"`. -/
inductive BinRes (V M : Type) where
  | call (method : M) (stackTop stackBelow : V)
  | typeExc (op cls1Name cls2Name : String)

/-- `callBinaryOverload` (vm.c:577-600).  `left` is `peek2` (below) and
`right` is `peek` (top).  `cls1` is the left operand's class, `cls2` the
right's.  The forward method is looked up on `cls1`; when absent and a
reverse overload exists, the two stack slots are swapped and the reverse is
looked up on `cls2`; when that also misses, a `TypeException` naming both
classes and the operator is raised. -/
def callBinaryOverload {V M : Type} (getClass : V → OClass M) (op : String)
    (overload : String) (reverse : Option String) (right left : V) : BinRes V M :=
  let cls1 := getClass left
  let cls2 := getClass right
  match cls1.methods.lookup overload with
  | some m => .call m right left
  | none =>
    match reverse with
    | some rev =>
      -- swap callee and arg (vm.c:587-590), then try the reverse overload
      match cls2.methods.lookup rev with
      | some m => .call m left right
      | none => .typeExc op cls1.name cls2.name
    | none => .typeExc op cls1.name cls2.name

/-- The binary opcodes that go through `BINARY`/`BINARY_OVERLOAD` in the
dispatch loop. -/
inductive BinOp where
  | add | sub | mul | div | mod | lt | le | gt | ge | eq
deriving DecidableEq

/-- The forward overload method name each opcode passes to
`callBinaryOverload` (vm.c:773-866 together with the overload name table at
vm.c:41-44). -/
def forwardName : BinOp → String
  | .add => "__add__"
  | .sub => "__sub__"
  | .mul => "__mul__"
  | .div => "__div__"
  | .mod => "__mod__"
  | .lt => "__lt__"
  | .le => "__le__"
  | .gt => "__gt__"
  | .ge => "__ge__"
  | .eq => "__eq__"

/-- The reverse overload name each opcode passes to `callBinaryOverload`;
`none` embeds `OVERLOAD_SENTINEL`.  The arithmetic opcodes pass their
`__r*__` form, while `OP_LT`, `OP_LE`, `OP_GT`, `OP_GE` and `OP_EQ` pass
`OVERLOAD_SENTINEL` (vm.c:839-866). -/
def reverseName : BinOp → Option String
  | .add => some "__radd__"
  | .sub => some "__rsub__"
  | .mul => some "__rmul__"
  | .div => some "__rdiv__"
  | .mod => some "__rmod__"
  | .lt => none
  | .le => none
  | .gt => none
  | .ge => none
  | .eq => none

/-- The operator glyph passed as the `#op` string to `callBinaryOverload`
by the `BINARY`/`BINARY_OVERLOAD` macros (vm.c:690-707). -/
def opGlyph : BinOp → String
  | .add => "+"
  | .sub => "-"
  | .mul => "*"
  | .div => "/"
  | .mod => "%"
  | .lt => "<"
  | .le => "<="
  | .gt => ">"
  | .ge => ">="
  | .eq => "=="

/-- The overload path of a binary opcode when the primitive case does not
apply: the dispatch loop calls `callBinaryOverload` with that opcode's
glyph, forward name and reverse name. -/
def binaryOverloadStep {V M : Type} (getClass : V → OClass M) (op : BinOp)
    (right left : V) : BinRes V M :=
  callBinaryOverload getClass (opGlyph op) (forwardName op) (reverseName op) right left

end Overload

-- -----------------------------------------------------------------------------
-- Unpacking: unpackObject (vm.c:602-633) and OP_UNPACK (vm.c:1198-1208)
-- -----------------------------------------------------------------------------

namespace Unpack

/-- `unpackObject` (vm.c:602-633): `o` must be a tuple or list (its element
array and size are read); `n` is the number of unpack targets
(`NEXT_CODE()` at the `OP_UNPACK` site).  When `n > size` a `TypeException`
"Too little values to unpack." is raised; otherwise the first `n` elements
are pushed in order.  The result is the list of pushed values. -/
def unpackObject (arr : List Value) (n : Nat) : Except String (List Value) :=
  if n > arr.length then
    .error "Too little values to unpack."
  else
    .ok (arr.take n)

/-- `OP_UNPACK` (vm.c:1198-1208): values other than lists and tuples raise a
`TypeException`; lists and tuples are passed to `unpackObject` with their
element arrays. -/
def opUnpack (v : Value) (n : Nat) : Except String (List Value) :=
  match v with
  | Value.vtuple arr => unpackObject arr n
  | Value.vlist arr => unpackObject arr n
  | _ => .error "Can unpack only Tuple or List"

end Unpack

-- -----------------------------------------------------------------------------
-- super dispatch: OP_SUPER / OP_SUPER_BIND (vm.c:1039-1063) and OP_DEF_METHOD
-- (vm.c:1210-1217)
-- -----------------------------------------------------------------------------

namespace Super

/-- An entry of a function's constant pool.  Only classes matter for the
super-dispatch claims; a class is identified by a numeric id. -/
inductive Const where
  | ccls (cid : Nat)
  | cother (id : Nat)
deriving DecidableEq

/-- The part of `ObjFunction` read by super dispatch: its constant pool. -/
structure ObjFunction where
  consts : List Const
deriving DecidableEq

/-- A closure: reference to its function (vm.c). -/
structure ObjClosure where
  fn : ObjFunction
deriving DecidableEq

/-- The part of `ObjClass` touched by `OP_DEF_METHOD`: its identity, its
superclass id and its method table mapping names to closures. -/
structure ObjClass where
  cid : Nat
  superCls : Nat
  methods : List (String × ObjClosure)

/-- `hashTablePut` as used by `OP_DEF_METHOD` (return value ignored):
replace the binding when present, append it when absent. -/
def tablePut (t : List (String × ObjClosure)) (k : String) (v : ObjClosure) :
    List (String × ObjClosure) :=
  match t with
  | [] => [(k, v)]
  | (k', v') :: rest =>
    if k' = k then (k', v) :: rest else (k', v') :: tablePut rest k v

/-- `OP_DEF_METHOD` (vm.c:1210-1217): with the class at `peek2` and the
method closure at `peek`, store the class's superclass into slot 0 of the
closure's constant pool ("Set the superclass as a const in the function")
and put the closure into the class's method table. -/
def opDefMethod (cls : ObjClass) (methodName : String) (clo : ObjClosure) :
    ObjClass × ObjClosure :=
  let clo' : ObjClosure := ⟨⟨clo.fn.consts.set 0 (Const.ccls cls.superCls)⟩⟩
  ({ cls with methods := tablePut cls.methods methodName clo' }, clo')

/-- The class consulted by `OP_SUPER` / `OP_SUPER_BIND` (vm.c:1045, 1056):
`AS_CLASS(fn->code.consts.arr[0])` of the executing function.  The receiver
(here its class id, sitting on the stack at `peekn(argc)`) is also passed,
mirroring the operand stack at the instruction: the source never reads it to
choose the class. -/
def opSuperClass (fn : ObjFunction) (_receiverCls : Nat) : Option Nat :=
  match fn.consts[0]? with
  | some (Const.ccls cid) => some cid
  | _ => none

end Super

-- -----------------------------------------------------------------------------
-- Upvalues: captureUpvalue (vm.c:158-182) and closeUpvalues (vm.c:184-191)
-- -----------------------------------------------------------------------------

namespace Upvalue

/-- An open `ObjUpvalue`: an identity (so that sharing is expressible) and
the stack-slot address it points into.  Stack addresses are modelled as
naturals ordered like the C pointers (higher slot = higher address). -/
structure ObjUpvalue where
  uid : Nat
  addr : Nat
deriving DecidableEq

/-- A closed upvalue: after `closeUpvalues`, the upvalue owns the value
copied out of its stack slot (`upvalue->closed = *upvalue->addr`) and its
address points at that storage. -/
structure ClosedUpvalue where
  uid : Nat
  addr : Nat
  closed : Value

/-- `captureUpvalue` (vm.c:158-182) on the open-upvalue list (head = highest
address): walk past entries with `upvalue->addr > addr`; return the existing
upvalue when one with the same address is found, otherwise link a fresh one
(with identity `fresh`) in at that position.  Returns the captured upvalue
and the updated list. -/
def captureUpvalue (fresh : Nat) (addr : Nat) :
    List ObjUpvalue → ObjUpvalue × List ObjUpvalue
  | [] => (⟨fresh, addr⟩, [⟨fresh, addr⟩])
  | u :: rest =>
    if addr < u.addr then
      let (r, rest') := captureUpvalue fresh addr rest
      (r, u :: rest')
    else if u.addr = addr then
      (u, u :: rest)
    else
      (⟨fresh, addr⟩, ⟨fresh, addr⟩ :: u :: rest)

/-- `closeUpvalues` (vm.c:184-191): pop upvalues off the head of the open
list while `upvalue->addr >= last`, copying the current stack value of each
popped slot into the upvalue's own storage.  `stack` gives the current value
of every slot.  Returns the closed upvalues (in closing order) and the
remaining open list. -/
def closeUpvalues (stack : Nat → Value) (last : Nat) :
    List ObjUpvalue → List ClosedUpvalue × List ObjUpvalue
  | [] => ([], [])
  | u :: rest =>
    if last ≤ u.addr then
      let (c, o) := closeUpvalues stack last rest
      (⟨u.uid, u.addr, stack u.addr⟩ :: c, o)
    else
      ([], u :: rest)

/-- The open-upvalue list invariant (spec §3 invariant 2): addresses strictly
decrease along the list, so the list is sorted by descending slot address
with at most one upvalue per slot. -/
def SortedDesc (l : List ObjUpvalue) : Prop :=
  l.Pairwise (fun a b => b.addr < a.addr)

end Upvalue

-- -----------------------------------------------------------------------------
-- evalBreak and the dispatch loop safe points: runEval (vm.c:665-1365),
-- JStarVM.evalBreak (vm.h:140-142)
-- -----------------------------------------------------------------------------

namespace Break

/-- The dispatch-loop state relevant to interruption: the cached instruction
pointer (an offset into the bytecode), the operand stack, and the VM's
`evalBreak` flag (vm.h:140-142, "If set, the VM will break the eval loop as
soon as possible"). -/
structure BreakSt where
  ip : Int
  stack : List Value
  evalBreak : Bool

/-- What a dispatch-loop step can do at the claimed safe points: continue at a
new state, enter `callValue` with an argument count, or raise an exception of
the given class. -/
inductive StepRes where
  | next (st : BreakSt)
  | call (argc : Nat) (st : BreakSt)
  | raised (excClass : String) (st : BreakSt)

/-- `OP_JUMP` (vm.c:914-918): read the signed 16-bit offset and add it to the
instruction pointer (the ip has already advanced past the 2 offset bytes).
The handler reads no VM state other than the ip; in particular it never
consults `evalBreak`. -/
def opJump (off : Int) (st : BreakSt) : StepRes :=
  .next { st with ip := st.ip + 2 + off }

/-- The `OP_CALL_0..OP_CALL_10` / `OP_CALL` family (vm.c:968-991): with the
argument count decoded, save the frame and enter `callValue` on
`peekn(argc)`.  No check of `evalBreak` occurs before the call. -/
def opCall (argc : Nat) (st : BreakSt) : StepRes :=
  .call argc st

end Break

-- -----------------------------------------------------------------------------
-- CLI import paths: initImportPaths (cli.c:107-131)
-- -----------------------------------------------------------------------------

namespace Cli

/-- Modelled from the spec: `jsrAddImportPath` (api, not among the sources).
Spec §6 lists "add an import path" among the embedding API operations; it is
modelled as appending the given path to the VM's import path list. -/
def jsrAddImportPath (paths : List (List Char)) (p : List Char) : List (List Char) :=
  paths ++ [p]

/-- The `JSTARPATH` splitting loop of `initImportPaths` (cli.c:117-129): the
buffer is flushed as a path at each ':' and once more after the loop, so the
segments between colons (including empty ones, and a final possibly-empty
segment) are produced in order. -/
def splitColon : List Char → List (List Char)
  | [] => [[]]
  | c :: rest =>
    if c = ':' then [] :: splitColon rest
    else
      match splitColon rest with
      | s :: ss => (c :: s) :: ss
      | [] => [[c]]

/-- `initImportPaths` (cli.c:107-131): add the custom (base) path first
("The custom path is appended first."); when `-E` was given (`ignoreEnv`)
stop; otherwise read `JSTARPATH` (absent = `none`) and add each
colon-separated segment in order. -/
def initImportPaths (paths0 : List (List Char)) (path : List Char)
    (ignoreEnv : Bool) (jstarPathEnv : Option (List Char)) : List (List Char) :=
  let paths1 := jsrAddImportPath paths0 path
  if ignoreEnv then paths1
  else
    match jstarPathEnv with
    | none => paths1
    | some env => (splitColon env).foldl jsrAddImportPath paths1

/-- The claim's reading of the same procedure, stated from the spec's words
("colon-separated list prepended to the import path", searched before the
base path; disabled by `-E`): the environment entries are placed ahead of
the base path. -/
def initImportPathsClaimed (paths0 : List (List Char)) (path : List Char)
    (ignoreEnv : Bool) (jstarPathEnv : Option (List Char)) : List (List Char) :=
  if ignoreEnv then paths0 ++ [path]
  else
    match jstarPathEnv with
    | none => paths0 ++ [path]
    | some env => paths0 ++ splitColon env ++ [path]

end Cli

-- -----------------------------------------------------------------------------
-- OP_SET_GLOBAL (vm.c:1262-1269)
-- -----------------------------------------------------------------------------

namespace Globals

/-- Modelled from the spec: `hashTablePut` (hashtable.c, not among the
sources).  It stores the key-value binding (replacing any previous one) and
returns whether the key was newly inserted: `OP_SET_GLOBAL` raises
`NameException` exactly when it returns true, and spec §4.5 says "SET_GLOBAL
(set of undefined raises NameException)", so a true return means the name
was absent.  Returns the updated table and that flag. -/
def hashTablePut {V : Type} (t : List (String × V)) (k : String) (v : V) :
    List (String × V) × Bool :=
  match t with
  | [] => ([(k, v)], true)
  | (k', v') :: rest =>
    if k' = k then ((k', v) :: rest, false)
    else
      let (r, b) := hashTablePut rest k v
      ((k', v') :: r, b)

/-- The outcome of `OP_SET_GLOBAL`: the module's globals after the opcode,
and whether a `NameException` was raised. -/
inductive SetGlobalRes (V : Type) where
  | ok (globals : List (String × V))
  | nameExc (name : String) (globals : List (String × V))

/-- `OP_SET_GLOBAL` (vm.c:1262-1269): `hashTablePut` the assigned value into
the current module's globals; when the put reports a fresh insertion the
name was not defined, and a `NameException` is raised — after the table was
already updated. -/
def opSetGlobal {V : Type} (globals : List (String × V)) (name : String) (v : V) :
    SetGlobalRes V :=
  let (g', isNew) := hashTablePut globals name v
  if isNew then .nameExc name g' else .ok g'

end Globals

-- -----------------------------------------------------------------------------
-- THEOREMS
-- -----------------------------------------------------------------------------

/-- C1.  On `try`/`ensure` exit paths, `OP_END_TRY` (vm.c:1281-1298) dispatches
on the nullness of the value slot (`peek2`), not on the cause tag.  The
exception and non-null-return paths behave as the claim states, but a pending
return of `null` through an `ensure` — the stack state `(null, CAUSE_RETURN)`
produced by `OP_RETURN` itself — falls through as if the block completed
normally, discarding the pending return instead of jumping into the return
path carrying `null`. -/
theorem endTry_pending_return_null :
    -- (a) OP_RETURN of null through an ensure handler resumes the handler with
    --     the stack (null, CAUSE_RETURN), cause on top
    (TryEnsure.opReturn ⟨[Value.vnull], [⟨TryEnsure.HandlerType.hEnsure, 77, 0⟩]⟩ =
      .resumeAt 77 ⟨[Value.vnum 1, Value.vnull], []⟩) ∧
    -- (b) OP_END_TRY on that stack falls through, leaving the stack untouched:
    --     the pending return is dropped
    (TryEnsure.endTry ⟨[Value.vnum 1, Value.vnull], []⟩ =
      .fallThrough ⟨[Value.vnum 1, Value.vnull], []⟩) ∧
    -- (c) what the claim requires instead: the return path carrying null,
    --     which here would pop the frame returning null — a different outcome
    (TryEnsure.opReturn ⟨[Value.vnull], []⟩ =
      .frameReturn Value.vnull ⟨[], []⟩) ∧
    (TryEnsure.Outcome.fallThrough ⟨[Value.vnum 1, Value.vnull], []⟩ ≠
      TryEnsure.Outcome.frameReturn Value.vnull ⟨[], []⟩) ∧
    -- (d) the cases the claim gets right: an unwinding exception continues to
    --     unwind with the same exception on top
    (TryEnsure.endTry ⟨[Value.vnum 0, Value.vobj 7], []⟩ =
      .unwind ⟨[Value.vobj 7], []⟩) ∧
    -- (e) a non-null pending return re-enters the OP_RETURN path with the
    --     same value
    (TryEnsure.endTry ⟨[Value.vnum 1, Value.vnum 42], []⟩ =
      TryEnsure.opReturn ⟨[Value.vnum 42], []⟩) ∧
    -- (f) normal completion (null, null) falls through
    (TryEnsure.endTry ⟨[Value.vnull, Value.vnull], []⟩ =
      .fallThrough ⟨[Value.vnull, Value.vnull], []⟩) := by
  refine ⟨rfl, rfl, rfl, ?_, rfl, rfl, rfl⟩
  intro h
  exact nomatch h

/-- C3 counterexample.  On a Module, `invokeValue` (vm.c:365-381) consults
`vm->modClass->methods` before the module's globals: with a module-class
method and a module global both named "m", the class method is called, not
the global — the claim says the globals table is checked first. -/
theorem invokeValue_module_counterexample :
    Invoke.invokeValue (V := Nat) ⟨"Module", [("m", 0)]⟩
        (Invoke.Val.module "foo" [("m", 1)]) "m" = .call 0 ∧
    (Invoke.InvokeRes.call 0 : Invoke.InvokeRes Nat) ≠ .call 1 := by
  refine ⟨rfl, ?_⟩
  intro h
  simp at h

/-- C3 amended.  Invoke-by-name: on an Instance the field table is checked
first and a field with the invoked name is called in preference to any class
method; on a Module the module class's method table is checked first, the
module's globals are consulted only when no module-class method exists, and a
NameException is raised when neither exists; any other receiver dispatches on
its class, raising MethodException when the method is absent. -/
theorem invokeValue_spec {V : Type} (modClass : Invoke.ObjClass V) (name : String) :
    (∀ fields cls f, fields.lookup name = some f →
      Invoke.invokeValue modClass (.inst fields cls) name = .call f) ∧
    (∀ fields cls, fields.lookup name = none →
      Invoke.invokeValue modClass (.inst fields cls) name = Invoke.invokeMethod cls name) ∧
    (∀ mname globals m, modClass.methods.lookup name = some m →
      Invoke.invokeValue modClass (.module mname globals) name = .call m) ∧
    (∀ mname globals f, modClass.methods.lookup name = none →
      globals.lookup name = some f →
      Invoke.invokeValue modClass (.module mname globals) name = .call f) ∧
    (∀ mname globals, modClass.methods.lookup name = none →
      globals.lookup name = none →
      Invoke.invokeValue modClass (.module mname globals) name = .nameExc name mname) ∧
    (∀ cls, Invoke.invokeValue modClass (.other cls) name = Invoke.invokeMethod cls name) ∧
    (∀ (cls : Invoke.ObjClass V) m, cls.methods.lookup name = some m →
      Invoke.invokeMethod cls name = .call m) ∧
    (∀ (cls : Invoke.ObjClass V), cls.methods.lookup name = none →
      Invoke.invokeMethod cls name = .methodExc cls.name name) := by
  refine ⟨?_, ?_, ?_, ?_, ?_, ?_, ?_, ?_⟩ <;>
    intros <;>
    simp [Invoke.invokeValue, Invoke.invokeMethod, *]

/-- C3 witness: the amended characterization evaluated at a concrete module
whose class has no method of the invoked name but whose globals do. -/
theorem invokeValue_spec_witness :
    Invoke.invokeValue (V := Nat) ⟨"Module", [("other", 0)]⟩
        (Invoke.Val.module "foo" [("g", 5)]) "g" = .call 5 := by
  exact (invokeValue_spec (V := Nat) ⟨"Module", [("other", 0)]⟩ "g").2.2.2.1
    "foo" [("g", 5)] 5 (by simp) (by simp)

/-- C5 counterexample.  `unpackObject` (vm.c:602-633) raises only when the
target count exceeds the element count: unpacking the 3-tuple `(1, 2, 3)`
into 2 names succeeds, pushing the first two elements — it does not raise a
TypeException as the claim states. -/
theorem unpackObject_counterexample :
    Unpack.opUnpack (Value.vtuple [Value.vnum 1, Value.vnum 2, Value.vnum 3]) 2 =
      .ok [Value.vnum 1, Value.vnum 2] ∧
    (Except.ok [Value.vnum 1, Value.vnum 2] :
        Except String (List Value)) ≠ .error "Too little values to unpack." := by
  refine ⟨rfl, ?_⟩
  intro h
  exact nomatch h

/-- C5 amended.  Unpacking a Tuple or List into more targets than it has
elements raises a TypeException ("Too little values to unpack."); unpacking
into at most as many targets succeeds, pushing the first `n` elements
positionally (so exactly-as-many targets receive all elements). -/
theorem unpackObject_spec (arr : List Value) (n : Nat) :
    (n > arr.length →
      Unpack.unpackObject arr n = .error "Too little values to unpack.") ∧
    (n ≤ arr.length → Unpack.unpackObject arr n = .ok (arr.take n)) ∧
    (n = arr.length → Unpack.unpackObject arr n = .ok arr) := by
  refine ⟨?_, ?_, ?_⟩ <;> intro h
  · simp [Unpack.unpackObject, h]
  · simp [Unpack.unpackObject, Nat.not_lt.mpr h]
  · simp [Unpack.unpackObject, h]

/-- C5 witness: unpacking a 3-element tuple into 3 targets yields all three
elements. -/
theorem unpackObject_spec_witness :
    Unpack.unpackObject [Value.vnum 1, Value.vnum 2, Value.vnum 3] 3 =
      .ok [Value.vnum 1, Value.vnum 2, Value.vnum 3] := by
  exact (unpackObject_spec [Value.vnum 1, Value.vnum 2, Value.vnum 3] 3).2.2 rfl

/-- C8.  The dispatch loop `runEval` (vm.c:665-1365) never reads the
`evalBreak` flag: the backward-jump and call handlers execute identically
with the flag set, and no synthetic Exception is ever raised.  Evaluated at
the failing input — `evalBreak` set while a backward `OP_JUMP` executes —
the step completes the jump normally. -/
theorem dispatch_ignores_evalBreak :
    -- the failing input: flag set, backward jump taken normally, no raise
    (Break.opJump (-8) ⟨10, [], true⟩ = .next ⟨4, [], true⟩) ∧
    (∀ e s, Break.opJump (-8) ⟨10, [], true⟩ ≠ Break.StepRes.raised e s) ∧
    -- in general, both claimed safe points ignore the flag entirely
    (∀ (off : Int) (st : Break.BreakSt),
      Break.opJump off { st with evalBreak := true } =
        .next { st with ip := st.ip + 2 + off, evalBreak := true }) ∧
    (∀ (argc : Nat) (st : Break.BreakSt),
      Break.opCall argc { st with evalBreak := true } =
        .call argc { st with evalBreak := true }) := by
  refine ⟨rfl, ?_, fun off st => rfl, fun argc st => rfl⟩
  intro e s h
  exact nomatch h

/-- Auxiliary: folding `jsrAddImportPath` over a list of segments appends
them in order. -/
theorem foldl_jsrAddImportPath (l acc : List (List Char)) :
    l.foldl Cli.jsrAddImportPath acc = acc ++ l := by
  induction l generalizing acc with
  | nil => simp
  | cons x xs ih => simp [Cli.jsrAddImportPath, ih]

/-- C9 counterexample.  `initImportPaths` (cli.c:107-131) adds the base path
before the `JSTARPATH` entries: with base path "./" and JSTARPATH "/a:/b",
the import path list is ["./", "/a", "/b"], not the claimed prepended order
["/a", "/b", "./"]. -/
theorem initImportPaths_counterexample :
    Cli.initImportPaths [] ['.', '/'] false
        (some ['/', 'a', ':', '/', 'b']) =
      [['.', '/'], ['/', 'a'], ['/', 'b']] ∧
    Cli.initImportPathsClaimed [] ['.', '/'] false
        (some ['/', 'a', ':', '/', 'b']) =
      [['/', 'a'], ['/', 'b'], ['.', '/']] ∧
    ([['.', '/'], ['/', 'a'], ['/', 'b']] : List (List Char)) ≠
      [['/', 'a'], ['/', 'b'], ['.', '/']] := by
  refine ⟨?_, ?_, by decide⟩ <;> rfl

/-- C9 amended.  When `JSTARPATH` is set and `-E` is not given, its
colon-separated entries are appended to the import path after the base path
(so they are searched after it, assuming in-order search); with `-E` they
are ignored entirely. -/
theorem initImportPaths_spec (paths0 : List (List Char)) (path : List Char)
    (ignoreEnv : Bool) (env : Option (List Char)) :
    Cli.initImportPaths paths0 path ignoreEnv env =
      paths0 ++ [path] ++
        (if ignoreEnv then []
         else
           match env with
           | none => []
           | some e => Cli.splitColon e) := by
  cases ignoreEnv with
  | true => simp [Cli.initImportPaths, Cli.jsrAddImportPath]
  | false =>
    cases env with
    | none => simp [Cli.initImportPaths, Cli.jsrAddImportPath]
    | some e =>
      simp [Cli.initImportPaths, Cli.jsrAddImportPath, foldl_jsrAddImportPath]

/-- Auxiliary: putting an absent key appends the binding and reports a fresh
insertion. -/
theorem hashTablePut_absent {V : Type} (t : List (String × V)) (k : String) (v : V)
    (h : t.lookup k = none) :
    Globals.hashTablePut t k v = (t ++ [(k, v)], true) := by
  induction t with
  | nil => rfl
  | cons p rest ih =>
    obtain ⟨k', v'⟩ := p
    rw [List.lookup_cons] at h
    cases hbeq : k == k' with
    | true =>
      rw [hbeq] at h
      simp at h
    | false =>
      rw [hbeq] at h
      have hne : k' ≠ k := by
        intro he
        rw [he] at hbeq
        simp at hbeq
      simp [Globals.hashTablePut, hne, ih h]

/-- Auxiliary: after appending `(k, v)` to a table without `k`, looking `k`
up finds `v`. -/
theorem lookup_append_absent {V : Type} (t : List (String × V)) (k : String) (v : V)
    (h : t.lookup k = none) :
    (t ++ [(k, v)]).lookup k = some v := by
  induction t with
  | nil => simp [List.lookup_cons]
  | cons p rest ih =>
    obtain ⟨k', v'⟩ := p
    rw [List.lookup_cons] at h
    cases hbeq : k == k' with
    | true =>
      rw [hbeq] at h
      simp at h
    | false =>
      rw [hbeq] at h
      rw [List.cons_append, List.lookup_cons, hbeq]
      exact ih h

/-- C10.  `OP_SET_GLOBAL` (vm.c:1262-1269) on a name not previously defined
in the current module raises NameException, but only after `hashTablePut`
has already inserted the binding: the module's globals afterwards contain
the name bound to the assigned value, so the failing assignment is not
atomic. -/
theorem opSetGlobal_not_atomic {V : Type} (globals : List (String × V))
    (name : String) (v : V) (h : globals.lookup name = none) :
    Globals.opSetGlobal globals name v = .nameExc name (globals ++ [(name, v)]) ∧
    (globals ++ [(name, v)]).lookup name = some v := by
  constructor
  · simp [Globals.opSetGlobal, hashTablePut_absent globals name v h]
  · exact lookup_append_absent globals name v h

/-- C10 witness: assigning to the undefined name "x" in a module with one
global raises NameException while leaving "x" bound to the value. -/
theorem opSetGlobal_not_atomic_witness :
    Globals.opSetGlobal (V := Nat) [("y", 0)] "x" 7 =
      .nameExc "x" [("y", 0), ("x", 7)] ∧
    ([("y", 0), ("x", 7)] : List (String × Nat)).lookup "x" = some 7 := by
  exact opSetGlobal_not_atomic [("y", 0)] "x" 7 (by simp)

/-- Auxiliary: 8-bit subtraction agrees with truncated subtraction when the
minuend is an in-range byte value at least as large as the subtrahend. -/
theorem u8sub_eq (a b : Nat) (hb : b ≤ a) (ha : a ≤ 255) :
    Args.u8sub a b = a - b := by
  unfold Args.u8sub
  omega

/-- C2.  Argument adjustment for a call with arity `n = argsCount` and `d`
default values, in the order the source tests the conditions: a non-vararg
function with `d = 0` and `argc ≠ n` raises TypeException "exactly"; a
non-vararg function (with defaults) and `argc > n` raises "at most"; any
function with `argc < n - d` raises "at least"; otherwise the call proceeds
and the defaults at indices `[argc - (n - d), d)` are pushed positionally,
and for varargs the extra `max(argc - n, 0)` arguments are collected into a
fresh tuple pushed as the last parameter. -/
theorem adjustArguments_spec (c : Args.FnCommon) (argc : Nat) (stack : List Value)
    (hn : c.argsCount ≤ 255) (hd : c.defaultc ≤ c.argsCount) (ha : argc ≤ 255) :
    (c.vararg = false → c.defaultc = 0 → argc ≠ c.argsCount →
      Args.adjustArguments c argc stack = .error ⟨"exactly", c.argsCount, argc⟩) ∧
    (c.vararg = false → 0 < c.defaultc → argc > c.argsCount →
      Args.adjustArguments c argc stack = .error ⟨"at most", c.argsCount, argc⟩) ∧
    ((c.vararg = true ∨ 0 < c.defaultc) → argc < c.argsCount - c.defaultc →
      Args.adjustArguments c argc stack =
        .error ⟨"at least", c.argsCount - c.defaultc, argc⟩) ∧
    (c.vararg = false → c.argsCount - c.defaultc ≤ argc → argc ≤ c.argsCount →
      Args.adjustArguments c argc stack =
        .ok ((Args.claimDefaults c argc).reverse ++ stack)) ∧
    (c.vararg = true → c.argsCount - c.defaultc ≤ argc →
      Args.adjustArguments c argc stack =
        .ok (Value.vtuple
              ((((Args.claimDefaults c argc).reverse ++ stack).take
                  (argc - c.argsCount)).reverse) ::
            ((Args.claimDefaults c argc).reverse ++ stack).drop
              (argc - c.argsCount))) := by
  have hleast : Args.u8sub c.argsCount c.defaultc = c.argsCount - c.defaultc :=
    u8sub_eq _ _ hd hn
  refine ⟨?_, ?_, ?_, ?_, ?_⟩
  · intro hv h0 hne
    simp only [Args.adjustArguments, hleast]
    rw [if_pos ⟨hv, by omega, hne⟩]
  · intro hv hdpos hgt
    simp only [Args.adjustArguments, hleast]
    rw [if_neg (by rintro ⟨-, he, -⟩; omega), if_pos ⟨hv, hgt⟩]
  · intro hvd hlt
    simp only [Args.adjustArguments, hleast]
    rcases hvd with hv | hdpos
    · rw [if_neg (by rintro ⟨hf, -, -⟩; rw [hv] at hf; exact Bool.noConfusion hf),
        if_neg (by rintro ⟨hf, -⟩; rw [hv] at hf; exact Bool.noConfusion hf),
        if_pos hlt]
    · rw [if_neg (by rintro ⟨-, he, -⟩; omega),
        if_neg (by rintro ⟨-, hgt⟩; omega),
        if_pos hlt]
  · intro hv hlo hhi
    simp only [Args.adjustArguments, hleast]
    rw [if_neg (by rintro ⟨-, he, hne⟩; omega),
      if_neg (by rintro ⟨-, hgt⟩; omega),
      if_neg (by omega),
      u8sub_eq argc (c.argsCount - c.defaultc) (by omega) ha,
      if_neg (by simp [hv])]
    simp only [Args.claimDefaults]
  · intro hv hlo
    simp only [Args.adjustArguments, hleast]
    rw [if_neg (by rintro ⟨hf, -, -⟩; rw [hv] at hf; exact Bool.noConfusion hf),
      if_neg (by rintro ⟨hf, -⟩; rw [hv] at hf; exact Bool.noConfusion hf),
      if_neg (by omega),
      u8sub_eq argc (c.argsCount - c.defaultc) (by omega) ha,
      if_pos (by simp [hv])]
    have hcount : (if argc > c.argsCount then argc - c.argsCount else 0) =
        argc - c.argsCount := by
      split_ifs <;> omega
    rw [hcount]
    simp only [Args.packVarargs, Args.claimDefaults]

/-- C2 witness: a non-vararg function of arity 3 with 2 defaults called with
2 arguments proceeds and pushes the default at index 1. -/
theorem adjustArguments_spec_witness :
    Args.adjustArguments ⟨false, 3, 2, fun i => Value.vnum i⟩ 2 [Value.vnum 10] =
      .ok [Value.vnum 1, Value.vnum 10] := by
  have h := (adjustArguments_spec ⟨false, 3, 2, fun i => Value.vnum i⟩ 2
    [Value.vnum 10] (by decide) (by decide) (by decide)).2.2.2.1 rfl
    (by decide) (by decide)
  simpa [Args.claimDefaults, List.range'] using h

/-- C4.  Binary operator overload fallback (vm.c:577-600): the left operand's
class is tried for the forward method first with the stack unchanged; when
absent and a reverse form exists, the two stack values are swapped and the
right operand's class is tried for the reverse; when that too is absent (or
no reverse form exists) a TypeException naming both class names and the
operator glyph is raised.  The comparison opcodes pass `OVERLOAD_SENTINEL`
(no reverse form) to this fallback (vm.c:839-866). -/
theorem callBinaryOverload_spec {V M : Type} (getClass : V → Overload.OClass M)
    (op fwd : String) (reverse : Option String) (right left : V) :
    (∀ m, (getClass left).methods.lookup fwd = some m →
      Overload.callBinaryOverload getClass op fwd reverse right left =
        .call m right left) ∧
    (∀ rev m, (getClass left).methods.lookup fwd = none → reverse = some rev →
      (getClass right).methods.lookup rev = some m →
      Overload.callBinaryOverload getClass op fwd reverse right left =
        .call m left right) ∧
    (reverse = none → (getClass left).methods.lookup fwd = none →
      Overload.callBinaryOverload getClass op fwd reverse right left =
        .typeExc op (getClass left).name (getClass right).name) ∧
    (∀ rev, reverse = some rev → (getClass left).methods.lookup fwd = none →
      (getClass right).methods.lookup rev = none →
      Overload.callBinaryOverload getClass op fwd reverse right left =
        .typeExc op (getClass left).name (getClass right).name) ∧
    (Overload.reverseName .lt = none ∧ Overload.reverseName .le = none ∧
      Overload.reverseName .gt = none ∧ Overload.reverseName .ge = none ∧
      Overload.reverseName .eq = none) ∧
    (Overload.binaryOverloadStep getClass .lt right left =
      Overload.callBinaryOverload getClass "<" "__lt__" none right left) ∧
    (Overload.binaryOverloadStep getClass .eq right left =
      Overload.callBinaryOverload getClass "==" "__eq__" none right left) := by
  refine ⟨?_, ?_, ?_, ?_, by simp [Overload.reverseName], rfl, rfl⟩ <;>
    intros <;>
    simp [Overload.callBinaryOverload, *]

/-- C4 witness: with the forward method absent on the left class and the
reverse present on the right class, the reverse method is called on the
swapped stack. -/
theorem callBinaryOverload_spec_witness :
    Overload.callBinaryOverload (V := Nat) (M := Nat)
        (fun v => if v = 0 then ⟨"A", []⟩ else ⟨"B", [("__radd__", 9)]⟩)
        "+" "__add__" (some "__radd__") 1 0 = .call 9 0 1 := by
  exact (callBinaryOverload_spec
    (fun v => if v = 0 then ⟨"A", []⟩ else ⟨"B", [("__radd__", 9)]⟩)
    "+" "__add__" (some "__radd__") 1 0).2.1 "__radd__" 9 (by simp) rfl (by simp)

/-- C6.  Super dispatch: `OP_DEF_METHOD` (vm.c:1210-1217) stores the defining
class's superclass into slot 0 of the method's constant pool, and
`OP_SUPER`/`OP_SUPER_BIND` (vm.c:1039-1063) consult exactly the class in that
slot — for every receiver, so the resolution never depends on the runtime
receiver class. -/
theorem super_fixed_class (cls : Super.ObjClass) (mname : String)
    (clo : Super.ObjClosure) (hne : clo.fn.consts ≠ []) :
    ((Super.opDefMethod cls mname clo).2.fn.consts[0]? =
      some (Super.Const.ccls cls.superCls)) ∧
    (∀ receiver, Super.opSuperClass (Super.opDefMethod cls mname clo).2.fn receiver =
      some cls.superCls) ∧
    (∀ (fn : Super.ObjFunction) (r1 r2 : Nat),
      Super.opSuperClass fn r1 = Super.opSuperClass fn r2) := by
  obtain ⟨⟨consts⟩⟩ := clo
  cases consts with
  | nil => exact absurd rfl hne
  | cons c0 cs =>
    refine ⟨?_, fun r => ?_, fun fn r1 r2 => rfl⟩ <;>
      simp [Super.opDefMethod, Super.opSuperClass]

/-- C6 witness: defining a method in a class whose superclass has id 5 makes
super dispatch inside that method consult class 5, whatever the receiver. -/
theorem super_fixed_class_witness :
    Super.opSuperClass
      (Super.opDefMethod ⟨1, 5, []⟩ "m" ⟨⟨[Super.Const.cother 0]⟩⟩).2.fn 99 =
      some 5 := by
  exact (super_fixed_class ⟨1, 5, []⟩ "m" ⟨⟨[Super.Const.cother 0]⟩⟩
    (by simp)).2.1 99

/-- Auxiliary: capturing below the head of the open list keeps the head and
recurses into the tail. -/
theorem captureUpvalue_cons_walk (fresh addr : Nat) (u : Upvalue.ObjUpvalue)
    (rest : List Upvalue.ObjUpvalue) (h : addr < u.addr) :
    Upvalue.captureUpvalue fresh addr (u :: rest) =
      ((Upvalue.captureUpvalue fresh addr rest).1,
        u :: (Upvalue.captureUpvalue fresh addr rest).2) := by
  simp [Upvalue.captureUpvalue, h]

/-- Auxiliary: capturing the slot of the list head returns the head and
leaves the list unchanged. -/
theorem captureUpvalue_cons_found (fresh addr : Nat) (u : Upvalue.ObjUpvalue)
    (rest : List Upvalue.ObjUpvalue) (_h1 : ¬addr < u.addr) (h2 : u.addr = addr) :
    Upvalue.captureUpvalue fresh addr (u :: rest) = (u, u :: rest) := by
  simp [Upvalue.captureUpvalue, h2]

/-- Auxiliary: capturing a slot above the head inserts a fresh upvalue in
front. -/
theorem captureUpvalue_cons_insert (fresh addr : Nat) (u : Upvalue.ObjUpvalue)
    (rest : List Upvalue.ObjUpvalue) (h1 : ¬addr < u.addr) (h2 : ¬u.addr = addr) :
    Upvalue.captureUpvalue fresh addr (u :: rest) =
      (⟨fresh, addr⟩, ⟨fresh, addr⟩ :: u :: rest) := by
  simp [Upvalue.captureUpvalue, h1, h2]

/-- Auxiliary: every member of the list after a capture was a member before
or is the fresh upvalue. -/
theorem captureUpvalue_mem (fresh addr : Nat) (l : List Upvalue.ObjUpvalue) :
    ∀ v ∈ (Upvalue.captureUpvalue fresh addr l).2,
      v ∈ l ∨ v = ⟨fresh, addr⟩ := by
  induction l with
  | nil =>
    intro v hv
    simp [Upvalue.captureUpvalue] at hv
    exact Or.inr hv
  | cons u rest ih =>
    intro v hv
    by_cases h1 : addr < u.addr
    · rw [captureUpvalue_cons_walk fresh addr u rest h1] at hv
      rcases List.mem_cons.mp hv with hv | hv
      · exact Or.inl (by simp [hv])
      · rcases ih v hv with hr | hr
        · exact Or.inl (List.mem_cons_of_mem u hr)
        · exact Or.inr hr
    · by_cases h2 : u.addr = addr
      · rw [captureUpvalue_cons_found fresh addr u rest h1 h2] at hv
        exact Or.inl hv
      · rw [captureUpvalue_cons_insert fresh addr u rest h1 h2] at hv
        rcases List.mem_cons.mp hv with hv | hv
        · exact Or.inr hv
        · exact Or.inl hv

/-- Auxiliary: capturing preserves the strict descending-address ordering of
the open-upvalue list. -/
theorem captureUpvalue_sorted (fresh addr : Nat) (l : List Upvalue.ObjUpvalue)
    (hs : Upvalue.SortedDesc l) :
    Upvalue.SortedDesc (Upvalue.captureUpvalue fresh addr l).2 := by
  induction l with
  | nil =>
    simp [Upvalue.captureUpvalue, Upvalue.SortedDesc]
  | cons u rest ih =>
    rw [Upvalue.SortedDesc, List.pairwise_cons] at hs
    obtain ⟨hu, hrest⟩ := hs
    by_cases h1 : addr < u.addr
    · rw [captureUpvalue_cons_walk fresh addr u rest h1]
      rw [Upvalue.SortedDesc, List.pairwise_cons]
      constructor
      · intro b hb
        rcases captureUpvalue_mem fresh addr rest b hb with hm | hm
        · exact hu b hm
        · rw [hm]
          exact h1
      · exact ih hrest
    · by_cases h2 : u.addr = addr
      · rw [captureUpvalue_cons_found fresh addr u rest h1 h2]
        exact List.Pairwise.cons hu hrest
      · rw [captureUpvalue_cons_insert fresh addr u rest h1 h2]
        rw [Upvalue.SortedDesc, List.pairwise_cons]
        have hua : u.addr < addr := by omega
        constructor
        · intro b hb
          rcases List.mem_cons.mp hb with hb | hb
          · rw [hb]
            exact hua
          · exact lt_trans (hu b hb) hua
        · exact List.Pairwise.cons hu hrest

/-- Auxiliary: on a sorted list that already holds an upvalue for the slot,
capture returns that upvalue and leaves the list unchanged (sharing). -/
theorem captureUpvalue_found (fresh addr : Nat) (l : List Upvalue.ObjUpvalue)
    (hs : Upvalue.SortedDesc l) (u : Upvalue.ObjUpvalue) (hu : u ∈ l)
    (he : u.addr = addr) :
    Upvalue.captureUpvalue fresh addr l = (u, l) := by
  induction l with
  | nil => exact absurd hu (List.not_mem_nil u)
  | cons u0 rest ih =>
    rw [Upvalue.SortedDesc, List.pairwise_cons] at hs
    obtain ⟨hu0, hrest⟩ := hs
    rcases List.mem_cons.mp hu with hr | hr
    · have h1 : ¬addr < u0.addr := by rw [← hr, he]; omega
      have h2 : u0.addr = addr := by rw [← hr, he]
      rw [captureUpvalue_cons_found fresh addr u0 rest h1 h2, hr]
    · have hlt : u.addr < u0.addr := hu0 u hr
      have h1 : addr < u0.addr := by omega
      rw [captureUpvalue_cons_walk fresh addr u0 rest h1,
        ih hrest hr]

/-- Auxiliary: on a list holding no upvalue for the slot, capture returns the
fresh upvalue and the updated list holds exactly the old members plus it. -/
theorem captureUpvalue_not_found (fresh addr : Nat) (l : List Upvalue.ObjUpvalue)
    (h : ∀ u ∈ l, u.addr ≠ addr) :
    (Upvalue.captureUpvalue fresh addr l).1 = ⟨fresh, addr⟩ ∧
    ∀ v, v ∈ (Upvalue.captureUpvalue fresh addr l).2 ↔
      v ∈ l ∨ v = ⟨fresh, addr⟩ := by
  induction l with
  | nil => exact ⟨rfl, by simp [Upvalue.captureUpvalue]⟩
  | cons u rest ih =>
    have hne : u.addr ≠ addr := h u (List.mem_cons_self u rest)
    have hrest : ∀ v ∈ rest, v.addr ≠ addr :=
      fun v hv => h v (List.mem_cons_of_mem u hv)
    by_cases h1 : addr < u.addr
    · rw [captureUpvalue_cons_walk fresh addr u rest h1]
      obtain ⟨ih1, ih2⟩ := ih hrest
      refine ⟨ih1, fun v => ?_⟩
      rw [List.mem_cons, List.mem_cons, ih2 v, or_assoc]
    · rw [captureUpvalue_cons_insert fresh addr u rest h1 hne]
      refine ⟨rfl, fun v => ?_⟩
      simp only [List.mem_cons]
      tauto

/-- Auxiliary: closing pops a head at or above the threshold. -/
theorem closeUpvalues_cons_ge (stack : Nat → Value) (last : Nat)
    (u : Upvalue.ObjUpvalue) (rest : List Upvalue.ObjUpvalue)
    (h : last ≤ u.addr) :
    Upvalue.closeUpvalues stack last (u :: rest) =
      (⟨u.uid, u.addr, stack u.addr⟩ :: (Upvalue.closeUpvalues stack last rest).1,
        (Upvalue.closeUpvalues stack last rest).2) := by
  simp [Upvalue.closeUpvalues, h]

/-- Auxiliary: closing stops at a head below the threshold. -/
theorem closeUpvalues_cons_lt (stack : Nat → Value) (last : Nat)
    (u : Upvalue.ObjUpvalue) (rest : List Upvalue.ObjUpvalue)
    (h : ¬last ≤ u.addr) :
    Upvalue.closeUpvalues stack last (u :: rest) = ([], u :: rest) := by
  simp [Upvalue.closeUpvalues, h]

/-- Auxiliary: on a sorted open list, close keeps open exactly the upvalues
below the threshold and closes exactly those at or above it, copying the
current stack value of each closed slot. -/
theorem closeUpvalues_spec (stack : Nat → Value) (t : Nat)
    (l : List Upvalue.ObjUpvalue) (hs : Upvalue.SortedDesc l) :
    (Upvalue.closeUpvalues stack t l).2 =
      l.filter (fun u => u.addr < t) ∧
    (Upvalue.closeUpvalues stack t l).1 =
      (l.filter (fun u => t ≤ u.addr)).map
        (fun u => ⟨u.uid, u.addr, stack u.addr⟩) := by
  induction l with
  | nil => exact ⟨rfl, rfl⟩
  | cons u rest ih =>
    rw [Upvalue.SortedDesc, List.pairwise_cons] at hs
    obtain ⟨hu, hrest⟩ := hs
    by_cases h : t ≤ u.addr
    · rw [closeUpvalues_cons_ge stack t u rest h]
      obtain ⟨ih1, ih2⟩ := ih hrest
      constructor
      · rw [ih1]
        simp [List.filter_cons, Nat.not_lt.mpr h]
      · rw [ih2]
        simp [List.filter_cons, h]
    · rw [closeUpvalues_cons_lt stack t u rest h]
      have hall : ∀ b ∈ rest, b.addr < t :=
        fun b hb => lt_trans (hu b hb) (Nat.lt_of_not_le h)
      constructor
      · rw [List.filter_cons_of_pos (by simp [Nat.lt_of_not_le h]),
          List.filter_eq_self.mpr (fun b hb => by simp [hall b hb])]
      · rw [List.filter_cons_of_neg (by simp [h]),
          List.filter_eq_nil_iff.mpr (fun b hb => by simp [Nat.not_le.mpr (hall b hb)])]
        rfl

/-- C7.  The open-upvalue list invariant: on a list sorted by strictly
descending slot address (hence at most one open upvalue per slot),
`captureUpvalue` (vm.c:158-182) preserves the ordering, returns the existing
upvalue — leaving the list unchanged — when the slot is already captured (so
closures capturing the same local share one cell), and otherwise returns a
fresh upvalue inserted at its sorted position; `closeUpvalues` (vm.c:184-191)
closes exactly the open upvalues whose address is at or above the threshold,
copying each slot's current value into the upvalue's own storage, and leaves
all upvalues below the threshold open and unchanged. -/
theorem upvalue_open_list_invariant (stack : Nat → Value) (fresh addr t : Nat)
    (l : List Upvalue.ObjUpvalue) (hs : Upvalue.SortedDesc l) :
    Upvalue.SortedDesc (Upvalue.captureUpvalue fresh addr l).2 ∧
    (∀ u ∈ l, u.addr = addr → Upvalue.captureUpvalue fresh addr l = (u, l)) ∧
    ((∀ u ∈ l, u.addr ≠ addr) →
      (Upvalue.captureUpvalue fresh addr l).1 = ⟨fresh, addr⟩ ∧
      ∀ v, v ∈ (Upvalue.captureUpvalue fresh addr l).2 ↔
        v ∈ l ∨ v = ⟨fresh, addr⟩) ∧
    ((Upvalue.closeUpvalues stack t l).2 =
      l.filter (fun u => u.addr < t)) ∧
    ((Upvalue.closeUpvalues stack t l).1 =
      (l.filter (fun u => t ≤ u.addr)).map
        (fun u => ⟨u.uid, u.addr, stack u.addr⟩)) := by
  refine ⟨captureUpvalue_sorted fresh addr l hs, ?_, ?_,
    (closeUpvalues_spec stack t l hs).1, (closeUpvalues_spec stack t l hs).2⟩
  · intro u hu he
    exact captureUpvalue_found fresh addr l hs u hu he
  · intro h
    exact captureUpvalue_not_found fresh addr l h

/-- C7 witness: on the sorted open list with slots 5 and 3, capturing slot 3
returns the existing upvalue and leaves the list unchanged, and closing at
threshold 4 closes exactly the slot-5 upvalue with its stack value. -/
theorem upvalue_open_list_invariant_witness :
    Upvalue.captureUpvalue 9 3 [⟨0, 5⟩, ⟨1, 3⟩] = (⟨1, 3⟩, [⟨0, 5⟩, ⟨1, 3⟩]) ∧
    Upvalue.closeUpvalues (fun i => Value.vnum i) 4 [⟨0, 5⟩, ⟨1, 3⟩] =
      ([⟨0, 5, Value.vnum 5⟩], [⟨1, 3⟩]) := by
  have hs : Upvalue.SortedDesc [⟨0, 5⟩, ⟨1, 3⟩] := by
    rw [Upvalue.SortedDesc]
    simp [List.pairwise_cons]
  have h := upvalue_open_list_invariant (fun i => Value.vnum i) 9 3 4
    [⟨0, 5⟩, ⟨1, 3⟩] hs
  refine ⟨h.2.1 ⟨1, 3⟩ (by simp) rfl, ?_⟩
  have h4 := h.2.2.2.1
  have h5 := h.2.2.2.2
  have : (Upvalue.closeUpvalues (fun i => Value.vnum i) 4 [⟨0, 5⟩, ⟨1, 3⟩]).2 =
      [⟨1, 3⟩] := by
    rw [h4]
    rfl
  have hfst : (Upvalue.closeUpvalues (fun i => Value.vnum i) 4 [⟨0, 5⟩, ⟨1, 3⟩]).1 =
      [⟨0, 5, Value.vnum 5⟩] := by
    rw [h5]
    rfl
  calc Upvalue.closeUpvalues (fun i => Value.vnum i) 4 [⟨0, 5⟩, ⟨1, 3⟩]
      = ((Upvalue.closeUpvalues (fun i => Value.vnum i) 4 [⟨0, 5⟩, ⟨1, 3⟩]).1,
          (Upvalue.closeUpvalues (fun i => Value.vnum i) 4 [⟨0, 5⟩, ⟨1, 3⟩]).2) := rfl
    _ = ([⟨0, 5, Value.vnum 5⟩], [⟨1, 3⟩]) := by rw [hfst, this]

end JStar
